import Mathlib

/-!
Verification development for the Fairum MIR-to-Petri-net translator.

The Rust sources `src/main.rs` and `src/translator.rs` are shallowly embedded
below. Pure helper functions of the translator become Lean functions with the
same names; the stateful translation pass becomes explicit state passing over
a `TransState` (the PNML net plus the call stack). Rust panics become
`Fatal.panicF` errors carrying the state at the point of the panic; Rust
`Result::Err` values become `Fatal.errF` (the distinction matters because the
`Call` arm of `visit_terminator_kind` discards the `Result` returned by the
nested `translate` call, while a panic always unwinds). Divergence is made
observable through a fuel parameter: a computation that returns `none` for
every fuel bound does not terminate.

The module `petri_net::function` (the function-subnet state) is referenced by
the translator but its source is not available; its operations are modelled
from the specification (sections 3 and 4.2) and are marked as such in their
doc comments.
-/

namespace Fairum

/-- Identifier of a procedure (models `rustc::hir::def_id::DefId`). -/
structure DefId where
  id : Nat
deriving DecidableEq, Repr

/-- A MIR local variable index (models `rustc::mir::Local`). -/
structure Local where
  idx : Nat
deriving DecidableEq, Repr

/-- The fragment of the type system the translator inspects: function
definitions, function pointers, and everything else (models the `sty` match
in the `Call` arm of `visit_terminator_kind`). -/
inductive Ty where
  | fnDef (d : DefId)
  | fnPtr
  | other (n : Nat)
deriving DecidableEq, Repr

/-- Base of a MIR place (models `rustc::mir::PlaceBase`): a local or a
static. A static carries its type so that `place.base.ty(decls)` is total on
it. -/
inductive PlaceBase where
  | localBase (l : Local)
  | staticBase (ty : Ty)
deriving DecidableEq, Repr

/-- A MIR place; the translator only ever inspects the base. -/
structure Place where
  base : PlaceBase
deriving DecidableEq, Repr

/-- A MIR operand (models `rustc::mir::Operand`). -/
inductive Operand where
  | copy (p : Place)
  | move (p : Place)
  | constant (ty : Ty)
deriving DecidableEq, Repr

/-- MIR statement kinds, restricted to what the visitor dispatch
distinguishes: `Assign`, `FakeRead` and `SetDiscriminant` reach
`visit_place`, `Retag` reaches `visit_retag`, `AscribeUserType` reaches
`visit_ascribe_user_ty`, and `StorageLive`/`StorageDead`/`Nop` only reach
`visit_local` or nothing. -/
inductive StatementKind where
  | assign
  | fakeRead
  | setDiscriminant
  | storageLive (l : Local)
  | storageDead (l : Local)
  | retag
  | ascribeUserTy
  | nop
deriving DecidableEq, Repr

/-- A MIR statement. -/
structure Statement where
  kind : StatementKind
deriving DecidableEq, Repr

/-- MIR terminator kinds (models `rustc::mir::TerminatorKind`). Basic blocks
are identified by their position in the body. `yield` and `dropAndReplace`
payloads that the translator never inspects before panicking or warning are
reduced to what the visitor superclass would visit. -/
inductive TerminatorKind where
  | ret
  | goto (target : Nat)
  | switchInt (discr : Operand) (targets : List Nat)
  | call (func : Operand) (args : List Operand) (destination : Option (Place × Nat))
  | drop (place : Place) (target : Nat)
  | assert (cond : Operand) (target : Nat)
  | yield
  | generatorDrop
  | dropAndReplace (place : Place) (value : Operand) (target : Nat)
  | resume
  | abort
  | falseEdges
  | falseUnwind
  | unreachable
deriving DecidableEq, Repr

/-- A MIR basic block: an ordered list of statements and one terminator. -/
structure BasicBlockData where
  statements : List Statement
  terminator : TerminatorKind
deriving DecidableEq, Repr

/-- A MIR body: basic blocks in the order the IR presents them (index =
block label) and the local declaration table (index = local index). -/
structure Body where
  basicBlocks : List BasicBlockData
  localDecls : List Ty
deriving DecidableEq, Repr

/-- The slice of `rustc::ty::TyCtxt` the translator queries. -/
structure TyCtxt where
  langItems : List (Option DefId)
  panicFn : Option DefId
  describeAsModule : DefId → String
  isForeignItem : DefId → Bool
  isMirAvailable : DefId → Bool
  optimizedMir : DefId → Body

/-- Substring test on character lists: does the list start with the
pattern? -/
def charListStarts : List Char → List Char → Bool
  | [], _ => true
  | _ :: _, [] => false
  | p :: ps, c :: cs => p == c && charListStarts ps cs

/-- Substring test on character lists: does the pattern occur anywhere? -/
def charListHasSub (pat : List Char) : List Char → Bool
  | [] => charListStarts pat []
  | c :: cs => charListStarts pat (c :: cs) || charListHasSub pat cs

/-- `strContainsSub s pat` models Rust `str::contains` (substring search). -/
def strContainsSub (s pat : String) : Bool :=
  charListHasSub pat.toList s.toList

/-- `skip_function` from `src/translator.rs`: a callee is skipped when it is
the `panic` lang item or its module description contains one of two panic
machinery paths. The lang-item membership test in the source only emits a
debug log and has no effect on the result, so it is omitted here. -/
def skip_function (tcx : TyCtxt) (def_id : DefId) : Bool :=
  if tcx.panicFn = some def_id then
    true
  else
    let description := tcx.describeAsModule def_id
    if strContainsSub description "std::rt::begin_panic_fmt" then true
    else if strContainsSub description "std::panicking::panicking" then true
    else false

/-- The skip predicate as the specification words it (section 4.4): the
callee is the panic entry point, or its descriptive module path contains the
known panic-machinery substrings, or it is a language intrinsic or lang item
the analysis has no model for. Stated separately from `skip_function` so the
two can be compared. -/
def skip_function_spec (tcx : TyCtxt) (def_id : DefId) : Bool :=
  (tcx.panicFn = some def_id)
    || strContainsSub (tcx.describeAsModule def_id) "std::rt::begin_panic_fmt"
    || strContainsSub (tcx.describeAsModule def_id) "std::panicking::panicking"
    || (some def_id) ∈ tcx.langItems

/-- `place_to_local` from `src/translator.rs`: statics panic. The error
message is the panic message. -/
def place_to_local (place : Place) : Except String Local :=
  match place.base with
  | .localBase l => .ok l
  | .staticBase _ => .error "static places cannot (yet) be converted to locals"

/-- `op_to_local` from `src/translator.rs`: constants panic. -/
def op_to_local (operand : Operand) : Except String Local :=
  match operand with
  | .copy p => place_to_local p
  | .move p => place_to_local p
  | .constant _ => .error "cannot convert Constant to Local"

/-- `place.base.ty(decls)`: the static type of a place base. Out-of-range
local indices abort in Rust (slice indexing), modelled as an error. -/
def placeBaseTy (decls : List Ty) : PlaceBase → Except String Ty
  | .localBase l =>
    match decls.get? l.idx with
    | some t => .ok t
    | none => .error "index out of bounds"
  | .staticBase t => .ok t

/-- The `let function = match sty.sty` expression in the `Call` arm of
`visit_terminator_kind`: function pointers and non-function types panic
(after an error log); function definitions resolve to their `DefId`. -/
def resolveFunctionDefId : Ty → Except String DefId
  | .fnPtr => .error "Function pointers are not supported"
  | .fnDef d => .ok d
  | .other _ => .error "Expected function definition or pointer"

/-- Opaque node handle into the PNML document (models `pnml::NodeRef`).
Places and transitions are numbered by separate counters. -/
abbrev NodeRef := Nat

/-- The single PNML net of the document: place and transition counters, the
two arc directions, and the explicitly set initial markings. A fresh place
carries no initial marking (the PNML default of zero tokens). -/
structure Net where
  placeCount : Nat
  transCount : Nat
  arcsPT : List (NodeRef × NodeRef)
  arcsTP : List (NodeRef × NodeRef)
  initialMarks : List (NodeRef × Nat)
deriving DecidableEq, Repr

/-- The empty net created at translator construction. -/
def Net.empty : Net := ⟨0, 0, [], [], []⟩

/-- `add_place`: allocate a fresh place, return its handle. -/
def Net.addPlace (n : Net) : Net × NodeRef :=
  ({ n with placeCount := n.placeCount + 1 }, n.placeCount)

/-- `add_transition`: allocate a fresh transition, return its handle. -/
def Net.addTransition (n : Net) : Net × NodeRef :=
  ({ n with transCount := n.transCount + 1 }, n.transCount)

/-- Arc from a place to a transition. -/
def Net.arcPT (n : Net) (p t : NodeRef) : Net :=
  { n with arcsPT := (p, t) :: n.arcsPT }

/-- Arc from a transition to a place. -/
def Net.arcTP (n : Net) (t p : NodeRef) : Net :=
  { n with arcsTP := (t, p) :: n.arcsTP }

/-- `initial_marking`: record an initial marking for a place. -/
def Net.initialMarking (n : Net) (p : NodeRef) (k : Nat) : Net :=
  { n with initialMarks := (p, k) :: n.initialMarks }

/-- Association-list lookup keyed by decidable equality. -/
def assocFind {κ : Type} {α : Type} [DecidableEq κ] (k : κ) : List (κ × α) → Option α
  | [] => none
  | (k₀, v) :: rest => if k₀ = k then some v else assocFind k rest

/-- The initial marking of a place: the recorded value, or the PNML default
of zero. -/
def Net.markingOf (n : Net) (p : NodeRef) : Nat :=
  match assocFind p n.initialMarks with
  | some k => k
  | none => 0

/-- Modelled from the spec: `petri_net::function::Local::new` (the module
`petri_net` is not among the given sources). Section 3: each IR local is
represented by a pair (live place, dead place); both are freshly allocated
and carry no initial marking. -/
def LocalPair.new (net : Net) : Net × (NodeRef × NodeRef) :=
  let (net1, live) := net.addPlace
  let (net2, dead) := net1.addPlace
  (net2, (live, dead))

/-- Modelled from the spec: the per-procedure state of
`petri_net::function::Function` (section 3, function instance): procedure
identifier, IR body reference, the map from locals to their (live, dead)
place pair, the locals bound to caller-owned places (arguments and the
return destination, excluded from storage release on return), the map from
block labels to entry places, the active block, the cursor place, and the
destination binding received from the caller. -/
structure Function where
  defId : DefId
  mirBody : Body
  fnName : String
  locals : List (Local × (NodeRef × NodeRef))
  boundLocals : List Local
  blockPlaces : List (Nat × NodeRef)
  activeBlock : Nat
  cursor : NodeRef
  destination : Option (Local × (NodeRef × NodeRef))
deriving DecidableEq, Repr

/-- Modelled from the spec (section 4.2, construction step 4): the entry
block (label 0) is bound to the caller-provided start place; every other
block gets a fresh entry place. -/
def allocBlockPlaces (startPlace : NodeRef) : Net → List Nat → Net × List (Nat × NodeRef)
  | net, [] => (net, [])
  | net, i :: rest =>
    let (net1, p) := if i = 0 then (net, startPlace) else net.addPlace
    let (net2, ps) := allocBlockPlaces startPlace net1 rest
    (net2, (i, p) :: ps)

/-- Modelled from the spec: `Function::new` (section 4.2, construction).
Argument locals and the return-destination local reuse the caller's place
pairs (steps 2 and 3); block entry places are set up per step 4; the cursor
starts at the entry place with the entry block active (step 5). The locals
of the body itself are added later by `add_locals`, which is how the
translator calls the module (`visit_body` invokes `add_locals` after the
frame is pushed). -/
def Function.new (defId : DefId) (body : Body) (net : Net)
    (argBinding : List (Local × (NodeRef × NodeRef)))
    (destination : Option (Local × (NodeRef × NodeRef)))
    (startPlace : NodeRef) (fnName : String) : Net × Function :=
  let (net1, bps) := allocBlockPlaces startPlace net (List.range body.basicBlocks.length)
  let destLocals : List Local :=
    match destination with
    | some (l, _) => [l]
    | none => []
  let destPairs : List (Local × (NodeRef × NodeRef)) :=
    match destination with
    | some d => [d]
    | none => []
  (net1,
    { defId := defId
      mirBody := body
      fnName := fnName
      locals := argBinding ++ destPairs
      boundLocals := argBinding.map Prod.fst ++ destLocals
      blockPlaces := bps
      activeBlock := 0
      cursor := startPlace
      destination := destination })

/-- Modelled from the spec (section 4.2, step 1 of construction): allocate a
fresh (live, dead) pair for every body local not already bound by arguments
or the return destination. -/
def addLocalsGo (f : Function) (net : Net) : List Nat → Net × Function
  | [] => (net, f)
  | i :: rest =>
    match assocFind (Local.mk i) f.locals with
    | some _ => addLocalsGo f net rest
    | none =>
      let (net1, pr) := LocalPair.new net
      addLocalsGo { f with locals := f.locals ++ [(Local.mk i, pr)] } net1 rest

/-- Modelled from the spec: `Function::add_locals`, called by `visit_body`
with the body's local declaration table. -/
def Function.add_locals (f : Function) (net : Net) (decls : List Ty) : Net × Function :=
  addLocalsGo f net (List.range decls.length)

/-- Modelled from the spec: `Function::get_local` — look up the (live, dead)
pair of a local; a missing local is a recoverable `Result` error in the
source (queried with the question-mark operator). -/
def Function.get_local (f : Function) (l : Local) : Except String (NodeRef × NodeRef) :=
  match assocFind l f.locals with
  | some pr => .ok pr
  | none => .error "local not found"

/-- Modelled from the spec: `Function::activate_block` (section 4.2) — set
the active block and move the cursor to its entry place; unknown blocks
fail. -/
def Function.activate_block (f : Function) (b : Nat) : Except String Function :=
  match assocFind b f.blockPlaces with
  | none => .error "unknown block"
  | some p => .ok { f with activeBlock := b, cursor := p }

/-- Modelled from the spec: `Function::add_statement` (section 4.2) — append
one transition to the straight-line chain: arc from the cursor place to a
fresh transition, fresh place after it, cursor advances. -/
def Function.add_statement (f : Function) (net : Net) : Net × Function :=
  let (net1, t) := net.addTransition
  let net2 := net1.arcPT f.cursor t
  let (net3, q) := net2.addPlace
  let net4 := net3.arcTP t q
  (net4, { f with cursor := q })

/-- Modelled from the spec: `Function::goto` (section 4.2) — a transition
from the cursor place to the target block entry place; unknown blocks
fail. -/
def Function.goto (f : Function) (net : Net) (target : Nat) : Except String (Net × Function) :=
  match assocFind target f.blockPlaces with
  | none => .error "unknown block"
  | some p =>
    let (net1, t) := net.addTransition
    let net2 := (net1.arcPT f.cursor t).arcTP t p
    .ok (net2, f)

/-- Modelled from the spec (section 4.2, `retorn` storage release): for each
local not bound to the caller, arcs live → t and t → dead. -/
def releaseArcs (t : NodeRef) (bound : List Local) :
    List (Local × (NodeRef × NodeRef)) → Net → Net
  | [], net => net
  | (l, pr) :: rest, net =>
    if l ∈ bound then releaseArcs t bound rest net
    else releaseArcs t bound rest ((net.arcPT pr.1 t).arcTP t pr.2)

/-- Modelled from the spec: `Function::retorn` (section 4.2) — a return
transition fed by the cursor place, with storage-release arcs for the
in-scope locals the caller does not own. The source passes the caller's
destination binding rather than a separate control return place, so the
deposit arc targets the live place of the destination pair when one is
present; a root instance (no destination) gets no outgoing control arc. -/
def Function.retorn (f : Function) (net : Net) : Net × Function :=
  let (net1, t) := net.addTransition
  let net2 := net1.arcPT f.cursor t
  let net3 := releaseArcs t f.boundLocals f.locals net2
  let net4 :=
    match f.destination with
    | none => net3
    | some (_, pr) => net3.arcTP t pr.1
  (net4, f)

/-- Modelled from the spec: `Function::function_call_start_place` (section
4.2, `call_site_start_place`) — the cursor place, which the callee uses as
its start place. -/
def Function.function_call_start_place (f : Function) : Option NodeRef :=
  some f.cursor

/-- `CallStack` from `src/translator.rs`. The Rust `Vec` pushes and pops at
the end and `peek` reads the last element; the list here keeps the top of
the stack at the head, which realizes the same access pattern. -/
structure CallStack (T : Type) where
  stack : List T
deriving DecidableEq, Repr

/-- `CallStack::push`. -/
def CallStack.push {T : Type} (s : CallStack T) (item : T) : CallStack T :=
  ⟨item :: s.stack⟩

/-- `CallStack::pop`. -/
def CallStack.pop {T : Type} (s : CallStack T) : CallStack T × Option T :=
  match s.stack with
  | [] => (s, none)
  | x :: rest => (⟨rest⟩, some x)

/-- `CallStack::peek`. -/
def CallStack.peek {T : Type} (s : CallStack T) : Option T :=
  match s.stack with
  | [] => none
  | x :: _ => some x

/-- `CallStack::is_empty` from `src/translator.rs`, whose body is
`self.is_empty()` — an unconditional call to itself (not to
`self.stack.is_empty()`). The recursion is made observable with a fuel
parameter: `none` means the computation has not produced a value within the
given bound. -/
def CallStack.isEmptyFuel {T : Type} : Nat → CallStack T → Option Bool
  | 0, _ => none
  | n + 1, s => CallStack.isEmptyFuel n s

/-- The mutable state of the `Translator`: the net under construction and
the call stack of function instances (top of the stack first). -/
structure TransState where
  net : Net
  callStack : List Function
deriving DecidableEq, Repr

/-- How a translation step aborts. `panicF` models a Rust panic (including
`expect` failures), which unwinds through every caller; `errF` models a
returned `Result::Err`, which propagates through the question-mark operator
but can be discarded by a caller that ignores the returned value. Both carry
the state at the point of failure, because the translator works on `&mut
self` and mutations made before the failure persist. -/
inductive Fatal where
  | panicF (msg : String) (st : TransState)
  | errF (msg : String) (st : TransState)
deriving DecidableEq, Repr

/-- Result of a non-recursive translation step. -/
abbrev StepResult := Except Fatal TransState

/-- Result of a possibly recursive translation step: `none` means the
computation did not finish within the fuel bound. -/
abbrev TransResult := Option StepResult

/-- The type of the recursive `translate` entry point, abstracted so the
block walker can be defined before the knot is tied with fuel. Arguments:
state, callee, start place, call arguments, destination. -/
abbrev Recur := TransState → DefId → NodeRef → List Operand → Option (Place × Nat) → TransResult

/-- `Translator::visit_statement`: append one transition for the statement
(`Function::add_statement`, with `expect` on an empty call stack), then
dispatch via `super_statement`. `Assign` reaches `visit_assign`, which
panics; `FakeRead` and `SetDiscriminant` reach `visit_place`, which panics;
`Retag` reaches `visit_retag` and `AscribeUserType` reaches
`visit_ascribe_user_ty`, both of which panic. `StorageLive`/`StorageDead`
only reach `visit_local` (a trace log) and `Nop` dispatches nothing. -/
def visitStatement (st : TransState) (stmt : Statement) : StepResult :=
  match st.callStack with
  | [] => .error (.panicF "empty call stack" st)
  | f :: rest =>
    let (net1, f1) := f.add_statement st.net
    let st1 : TransState := ⟨net1, f1 :: rest⟩
    match stmt.kind with
    | .assign => .error (.panicF "assign" st1)
    | .fakeRead => .error (.panicF "place" st1)
    | .setDiscriminant => .error (.panicF "place" st1)
    | .retag => .error (.panicF "retag" st1)
    | .ascribeUserTy => .error (.panicF "ascribe_user_ty" st1)
    | .storageLive _ => .ok st1
    | .storageDead _ => .ok st1
    | .nop => .ok st1

/-- The statement walk of one basic block, in order. -/
def visitStatements : TransState → List Statement → StepResult
  | st, [] => .ok st
  | st, s :: rest =>
    match visitStatement st s with
    | .error e => .error e
    | .ok st1 => visitStatements st1 rest

/-- `super_operand` of the MIR visitor: `Copy` and `Move` operands recurse
into `visit_place`, which the translator overrides with an unconditional
panic; constants only reach `visit_constant` (a trace log). -/
def superVisitOperand (st : TransState) (op : Operand) : StepResult :=
  match op with
  | .copy _ => .error (.panicF "place" st)
  | .move _ => .error (.panicF "place" st)
  | .constant _ => .ok st

/-- `super_operand` over an argument list, in order. -/
def superVisitOperands : TransState → List Operand → StepResult
  | st, [] => .ok st
  | st, op :: rest =>
    match superVisitOperand st op with
    | .error e => .error e
    | .ok st1 => superVisitOperands st1 rest

/-- The `super_terminator_kind` call that ends `visit_terminator_kind`: it
visits the operands and places of the terminator, so any `Copy`/`Move`
operand or destination place reaches the panicking `visit_place`
override. Terminator kinds whose arm already panicked are never observed
here. -/
def superTerminatorKind (st : TransState) (kind : TerminatorKind) : StepResult :=
  match kind with
  | .call func args dest =>
    match superVisitOperand st func with
    | .error e => .error e
    | .ok st1 =>
      match superVisitOperands st1 args with
      | .error e => .error e
      | .ok st2 =>
        match dest with
        | some _ => .error (.panicF "place" st2)
        | none => .ok st2
  | .switchInt discr _ => superVisitOperand st discr
  | .assert cond _ => superVisitOperand st cond
  | .drop _ _ => .error (.panicF "place" st)
  | .dropAndReplace _ _ _ => .error (.panicF "place" st)
  | _ => .ok st

/-- The argument-binding loop of `Translator::translate` (the `for arg in
args` loop): each operand is converted with `op_to_local` (a panic on
constants) and bound to the caller's (live, dead) pair via
`Function::get_local` (a `Result`, queried with the question-mark
operator). -/
def bindArgs (caller : Function) (st : TransState) :
    List Operand → Except Fatal (List (Local × (NodeRef × NodeRef)))
  | [] => .ok []
  | a :: rest =>
    match op_to_local a with
    | .error m => .error (.panicF m st)
    | .ok l =>
      match caller.get_local l with
      | .error m => .error (.errF m st)
      | .ok pr =>
        match bindArgs caller st rest with
        | .error e => .error e
        | .ok binding => .ok ((l, pr) :: binding)

/-- The `let sty = match func` step of the `Call` arm: the static type of
the callee operand. A `Copy`/`Move` callee peeks the caller frame (with
`expect`) for its local declarations; a constant callee carries its type. -/
def calleeSty (st : TransState) : Operand → Except Fatal Ty
  | .copy p =>
    match st.callStack with
    | [] => .error (.panicF "peeked empty stack" st)
    | f :: _ =>
      match placeBaseTy f.mirBody.localDecls p.base with
      | .error m => .error (.panicF m st)
      | .ok t => .ok t
  | .move p =>
    match st.callStack with
    | [] => .error (.panicF "peeked empty stack" st)
    | f :: _ =>
      match placeBaseTy f.mirBody.localDecls p.base with
      | .error m => .error (.panicF m st)
      | .ok t => .ok t
  | .constant ty => .ok ty

/-- The tail of the `Call` arm once the callee `DefId` is resolved: foreign
items only warn, skip-policy callees do nothing, callees without MIR only
warn, and everything else descends through `recur` — whose returned `Result`
the source discards, so a recoverable error from the nested translation is
swallowed and the walk continues with the state the callee left behind,
while a panic keeps unwinding. -/
def handleResolvedCall (recur : Recur) (tcx : TyCtxt) (st : TransState) (function : DefId)
    (args : List Operand) (destination : Option (Place × Nat)) : TransResult :=
  if tcx.isForeignItem function then some (.ok st)
  else if !(skip_function tcx function) then
    if !(tcx.isMirAvailable function) then some (.ok st)
    else
      match st.callStack with
      | [] => some (.error (.panicF "empty call stack" st))
      | f :: _ =>
        match f.function_call_start_place with
        | none => some (.error (.panicF "Unable to infer start place of function call" st))
        | some sp =>
          match recur st function sp args destination with
          | none => none
          | some (.error (.panicF m s)) => some (.error (.panicF m s))
          | some (.error (.errF _ s)) => some (.ok s)
          | some (.ok s) => some (.ok s)
  else some (.ok st)

/-- The terminator dispatch of `Translator::visit_terminator_kind` (the big
match on the kind). The `Call` arm resolves the static type of the callee
operand, resolves the `DefId`, then continues with
`handleResolvedCall`. -/
def visitTerminatorArm (recur : Recur) (tcx : TyCtxt) (st : TransState)
    (kind : TerminatorKind) : TransResult :=
  match kind with
    | .ret =>
      match st.callStack with
      | [] => some (.error (.panicF "empty call stack" st))
      | f :: rest =>
        let (net1, f1) := f.retorn st.net
        some (.ok ⟨net1, f1 :: rest⟩)
    | .goto target =>
      match st.callStack with
      | [] => some (.error (.panicF "empty call stack" st))
      | f :: rest =>
        match f.goto st.net target with
        | .error _ => some (.error (.panicF "Goto Block failed" st))
        | .ok (net1, f1) => some (.ok ⟨net1, f1 :: rest⟩)
    | .switchInt _ _ => some (.error (.panicF "SwitchInt" st))
    | .call func args destination =>
      match calleeSty st func with
      | .error e => some (.error e)
      | .ok sty =>
        match resolveFunctionDefId sty with
        | .error m => some (.error (.panicF m st))
        | .ok function => handleResolvedCall recur tcx st function args destination
    | .drop _ _ => some (.error (.panicF "drop" st))
    | .falseEdges =>
      some (.error (.panicF "should have been eliminated by simplify_branches mir pass" st))
    | .falseUnwind =>
      some (.error (.panicF "should have been eliminated by simplify_branches mir pass" st))
    | _ => some (.ok st)

/-- `Translator::visit_terminator_kind`: the arm dispatch above followed by
the `super_terminator_kind` visit when no panic occurred. -/
def visitTerminatorKind (recur : Recur) (tcx : TyCtxt) (st : TransState)
    (kind : TerminatorKind) : TransResult :=
  match visitTerminatorArm recur tcx st kind with
  | none => none
  | some (.error e) => some (.error e)
  | some (.ok st1) => some (superTerminatorKind st1 kind)

/-- `Translator::visit_basic_block_data`: activate the block (with `expect`
on failure), then the statements and the terminator in order. -/
def visitBasicBlockData (recur : Recur) (tcx : TyCtxt) (st : TransState)
    (bIdx : Nat) (bb : BasicBlockData) : TransResult :=
  match st.callStack with
  | [] => some (.error (.panicF "empty call stack" st))
  | f :: rest =>
    match f.activate_block bIdx with
    | .error _ => some (.error (.panicF "unable to activate basic" st))
    | .ok f1 =>
      let st1 : TransState := ⟨st.net, f1 :: rest⟩
      match visitStatements st1 bb.statements with
      | .error e => .error e |> some
      | .ok st2 => visitTerminatorKind recur tcx st2 bb.terminator

/-- The block walk of `super_body`: blocks in presentation order. -/
def visitBlocks (recur : Recur) (tcx : TyCtxt) :
    TransState → Nat → List BasicBlockData → TransResult
  | st, _, [] => some (.ok st)
  | st, i, bb :: rest =>
    match visitBasicBlockData recur tcx st i bb with
    | none => none
    | some (.error e) => some (.error e)
    | some (.ok st1) => visitBlocks recur tcx st1 (i + 1) rest

/-- `Translator::visit_body`: the phase check only logs, then `add_locals`
(with `expect`) and the block walk. -/
def visitBody (recur : Recur) (tcx : TyCtxt) (st : TransState) (body : Body) : TransResult :=
  match st.callStack with
  | [] => some (.error (.panicF "empty call stack" st))
  | f :: rest =>
    let (net1, f1) := f.add_locals st.net body.localDecls
    visitBlocks recur tcx ⟨net1, f1 :: rest⟩ 0 body.basicBlocks

/-- The tail of `Translator::translate` once the argument and destination
bindings are built: construct the function subnet, push it, walk the body,
pop the stack. Popping ignores the `Option` result, exactly as the source
ignores the return value of `CallStack::pop`. -/
def translateCore (recur : Recur) (tcx : TyCtxt) (st : TransState) (function : DefId)
    (body : Body) (argBinding : List (Local × (NodeRef × NodeRef)))
    (destBinding : Option (Local × (NodeRef × NodeRef)))
    (net : Net) (start_place : NodeRef) (fn_name : String) : TransResult :=
  let (net1, fNew) := Function.new function body net argBinding destBinding start_place fn_name
  let stPushed : TransState := ⟨net1, fNew :: st.callStack⟩
  match visitBody recur tcx stPushed body with
  | none => none
  | some (.error e) => some (.error e)
  | some (.ok stAfter) => some (.ok ⟨stAfter.net, stAfter.callStack.tail⟩)

/-- `Translator::translate` for a fixed recursion callback and a fuel bound
for `CallStack::is_empty`: bind the arguments (ignored when the list is
empty, i.e. when coming from `main`), bind the destination, then run
`translateCore`. The destination binding queries the non-terminating
`CallStack::is_empty`; its `true` branch (meant for the root) allocates an
unused place and a fresh local pair, its `false` branch reuses the caller's
pair for the destination local. -/
def translateBody (recur : Recur) (fuel : Nat) (tcx : TyCtxt) (st : TransState)
    (function : DefId) (start_place : NodeRef) (args : List Operand)
    (destination : Option (Place × Nat)) : TransResult :=
  let fn_name := tcx.describeAsModule function
  let body := tcx.optimizedMir function
  let argsE : Except Fatal (List (Local × (NodeRef × NodeRef))) :=
    if args.isEmpty then .ok []
    else
      match st.callStack with
      | [] => .error (.panicF "empty call stack" st)
      | f :: _ => bindArgs f st args
  match argsE with
  | .error e => some (.error e)
  | .ok argBinding =>
    match destination with
    | none =>
      translateCore recur tcx st function body argBinding none st.net start_place fn_name
    | some (place, _block) =>
      match place_to_local place with
      | .error m => some (.error (.panicF m st))
      | .ok lcl =>
        match CallStack.isEmptyFuel fuel (CallStack.mk st.callStack) with
        | none => none
        | some true =>
          let (net1, _place) := st.net.addPlace
          let (net2, pr) := LocalPair.new net1
          translateCore recur tcx st function body argBinding (some (lcl, pr)) net2
            start_place fn_name
        | some false =>
          match st.callStack with
          | [] => some (.error (.panicF "empty call stack" st))
          | f :: _ =>
            match f.get_local lcl with
            | .error m => some (.error (.errF m st))
            | .ok pr =>
              translateCore recur tcx st function body argBinding (some (lcl, pr)) st.net
                start_place fn_name

/-- `Translator::translate` with a fuel bound: the knot of the recursion.
Fuel decreases at every nested call; `none` for every fuel bound means the
translation does not terminate. -/
def translateFuel : Nat → TyCtxt → TransState → DefId → NodeRef → List Operand →
    Option (Place × Nat) → TransResult
  | 0, _, _, _, _, _, _ => none
  | fuel + 1, tcx, st, function, start_place, args, destination =>
    translateBody (fun s d sp a dst => translateFuel fuel tcx s d sp a dst) fuel tcx st
      function start_place args destination

/-- The XML serialization of the document (`pnml_doc.to_xml`), abstracted to
a deterministic rendering of the net. -/
def serializeNet (n : Net) : String :=
  "pnml places " ++ toString n.placeCount ++ " transitions " ++ toString n.transCount

/-- The state `Translator::petrify` builds before invoking `translate`: the
document of `Translator::new` with the start place allocated and given
initial marking one, and the empty call stack. The allocated start place is
the handle `(Net.empty.addPlace).2`, that is, `0`. -/
def initState : TransState :=
  ⟨(Net.empty.addPlace).1.initialMarking (Net.empty.addPlace).2 1, []⟩

/-- `Translator::petrify`: create the start place with one initial token,
translate the entry procedure with no arguments and no destination, and only
then serialize the document to standard output. The question-mark operator
on `translate` means nothing is printed when translation fails. -/
def petrify (fuel : Nat) (tcx : TyCtxt) (main_fn : DefId) :
    Option (Except Fatal (TransState × String)) :=
  match translateFuel fuel tcx initState main_fn (Net.empty.addPlace).2 [] none with
  | none => none
  | some (.error e) => some (.error e)
  | some (.ok st) => some (.ok (st, serializeNet st.net))

/-- The driver in `src/main.rs`: run the translation; a panic is caught by
`report_ices_to_stderr_if_any` and becomes an error, and the process exits
with `result.is_err() as i32`. The first component is what reached standard
output, the second the exit code; `none` means the process never exits. -/
def runMain (fuel : Nat) (tcx : TyCtxt) (main_fn : DefId) : Option (Option String × Nat) :=
  match petrify fuel tcx main_fn with
  | none => none
  | some (.error _) => some (none, 1)
  | some (.ok (_, out)) => some (some out, 0)

deriving instance DecidableEq for Except

/-- The state carried by a step result, whether the step succeeded, panicked
or returned an error. -/
def stepState : StepResult → TransState
  | .ok st => st
  | .error (.panicF _ st) => st
  | .error (.errF _ st) => st

/-- The recorded initial markings of the state a step result carries. -/
def stepMarks (r : StepResult) : List (NodeRef × Nat) :=
  (stepState r).net.initialMarks

/-- Every state a fuel-bounded result can carry keeps the recorded initial
markings `m`. -/
def resMarksEq (m : List (NodeRef × Nat)) (r : TransResult) : Prop :=
  ∀ r', r = some r' → stepMarks r' = m

/-- The recursion callback never changes the recorded initial markings of
the state it is given. -/
def recurPreservesMarks (recur : Recur) : Prop :=
  ∀ s d sp a dst, resMarksEq s.net.initialMarks (recur s d sp a dst)

/-! Concrete fixtures used by witnesses and counterexamples. -/

/-- A recursion callback that never answers; used where the callback is
irrelevant to the statement. -/
def recurNone : Recur := fun _ _ _ _ _ => none

/-- Entry procedure identifier of the empty program. -/
def mainId : DefId := ⟨0⟩

/-- The empty entry procedure: one block, no statements, `Return`. -/
def bodyMain : Body := ⟨[⟨[], .ret⟩], []⟩

/-- Compiler context of the empty program. -/
def tcx1 : TyCtxt :=
  { langItems := []
    panicFn := none
    describeAsModule := fun _ => "crate::main"
    isForeignItem := fun _ => false
    isMirAvailable := fun _ => true
    optimizedMir := fun _ => bodyMain }

/-- Identifier of the directly recursive procedure. -/
def rId : DefId := ⟨1⟩

/-- Body of the directly recursive procedure: one block whose terminator
calls the procedure itself (constant callee, no arguments, no
destination). -/
def bodyR : Body := ⟨[⟨[], .call (.constant (.fnDef rId)) [] none⟩], []⟩

/-- Compiler context of the directly recursive program. -/
def tcxR : TyCtxt :=
  { langItems := []
    panicFn := none
    describeAsModule := fun _ => "crate::r"
    isForeignItem := fun _ => false
    isMirAvailable := fun _ => true
    optimizedMir := fun _ => bodyR }

/-- Identifier of the panic entry point. -/
def pId : DefId := ⟨2⟩

/-- Compiler context in which `pId` is the `panic` lang item, so the skip
policy selects it. -/
def tcxP : TyCtxt :=
  { langItems := [some pId]
    panicFn := some pId
    describeAsModule := fun _ => "std::panicking::begin_panic"
    isForeignItem := fun _ => false
    isMirAvailable := fun _ => true
    optimizedMir := fun _ => bodyMain }

/-- Identifier of a foreign item. -/
def fId : DefId := ⟨3⟩

/-- Compiler context in which `fId` is foreign (no IR available). -/
def tcxF : TyCtxt :=
  { langItems := []
    panicFn := none
    describeAsModule := fun _ => "libc::write"
    isForeignItem := fun d => d = fId
    isMirAvailable := fun d => !(d = fId : Bool)
    optimizedMir := fun _ => bodyMain }

/-- A lang item that is not the panic entry point and whose module
description contains no panic-machinery substring. -/
def d5 : DefId := ⟨7⟩

/-- Compiler context for the skip-policy comparison: `d5` is a lang item the
analysis has no model for, yet nothing panic-related. -/
def tcx5 : TyCtxt :=
  { langItems := [some d5]
    panicFn := none
    describeAsModule := fun _ => "std::intrinsics::transmute"
    isForeignItem := fun _ => false
    isMirAvailable := fun _ => true
    optimizedMir := fun _ => bodyMain }

/-- A caller body with one function-pointer-typed local, for the callee
resolution claim. -/
def bodyPtr : Body := ⟨[⟨[], .ret⟩], [.fnPtr]⟩

/-- A caller frame whose local 0 has function-pointer type. -/
def framePtr : Function :=
  (Function.new mainId bodyPtr Net.empty [] none 0 "caller").2

/-- Translator state with the `framePtr` caller on the stack. -/
def stPtr : TransState := ⟨(Function.new mainId bodyPtr Net.empty [] none 0 "caller").1, [framePtr]⟩

/-- The place reading local 0. -/
def pl0 : Place := ⟨.localBase ⟨0⟩⟩

/-- The place reading local 1. -/
def pl1 : Place := ⟨.localBase ⟨1⟩⟩

/-- A caller frame owning local 1 with the place pair (5, 6), for the
argument-binding claim. -/
def callerC6 : Function :=
  (Function.new mainId bodyMain Net.empty [(⟨1⟩, (5, 6))] none 0 "caller").2

/-- A generic caller frame. -/
def fC : Function := (Function.new mainId bodyMain Net.empty [] none 0 "caller").2

/-- A generic caller state with the single frame `fC`. -/
def stC : TransState := ⟨(Function.new mainId bodyMain Net.empty [] none 0 "caller").1, [fC]⟩

/-- The final translator state of the empty program (computed run of
`petrify 1 tcx1 mainId`): one place, one return transition, one arc, the
start place marked with one token, empty stack after the root pop. -/
def stMainRun : TransState := ⟨⟨1, 1, [(0, 0)], [], [(0, 1)]⟩, []⟩

/-- The serialized document of the empty program. -/
def outMain : String := "pnml places 1 transitions 1"

/-! Preservation of recorded initial markings: no operation of the
translation pass after `petrify` sets an initial marking. -/

theorem localPairNew_marks (n : Net) : (LocalPair.new n).1.initialMarks = n.initialMarks := rfl

theorem allocBlockPlaces_marks (sp : NodeRef) (l : List Nat) (n : Net) :
    (allocBlockPlaces sp n l).1.initialMarks = n.initialMarks := by
  induction l generalizing n with
  | nil => rfl
  | cons i rest ih =>
    by_cases h : i = 0 <;>
      simp [allocBlockPlaces, h, ih, Net.addPlace]

theorem functionNew_marks (d : DefId) (body : Body) (net : Net)
    (argB : List (Local × (NodeRef × NodeRef))) (destB : Option (Local × (NodeRef × NodeRef)))
    (sp : NodeRef) (nm : String) :
    (Function.new d body net argB destB sp nm).1.initialMarks = net.initialMarks := by
  have h := allocBlockPlaces_marks sp (List.range body.basicBlocks.length) net
  unfold Function.new
  rcases hA : allocBlockPlaces sp net (List.range body.basicBlocks.length) with ⟨n1, bps⟩
  rw [hA] at h
  simpa using h

theorem addLocalsGo_marks (l : List Nat) (f : Function) (n : Net) :
    (addLocalsGo f n l).1.initialMarks = n.initialMarks := by
  induction l generalizing f n with
  | nil => rfl
  | cons i rest ih =>
    cases hA : assocFind (Local.mk i) f.locals <;>
      simp [addLocalsGo, hA, ih, LocalPair.new, Net.addPlace]

theorem addLocals_marks (f : Function) (n : Net) (decls : List Ty) :
    (f.add_locals n decls).1.initialMarks = n.initialMarks :=
  addLocalsGo_marks _ f n

theorem addStatement_marks (f : Function) (n : Net) :
    (f.add_statement n).1.initialMarks = n.initialMarks := rfl

theorem goto_marks (f : Function) (n : Net) (target : Nat) (n1 : Net) (f1 : Function)
    (h : f.goto n target = Except.ok (n1, f1)) : n1.initialMarks = n.initialMarks := by
  cases hA : assocFind target f.blockPlaces <;>
    simp [Function.goto, hA, Net.addTransition, Net.arcPT, Net.arcTP] at h
  exact h.1 ▸ rfl

theorem releaseArcs_marks (t : NodeRef) (bound : List Local)
    (locs : List (Local × (NodeRef × NodeRef))) (n : Net) :
    (releaseArcs t bound locs n).initialMarks = n.initialMarks := by
  induction locs generalizing n with
  | nil => rfl
  | cons lp rest ih =>
    rcases lp with ⟨l, pr⟩
    by_cases h : l ∈ bound <;>
      simp [releaseArcs, h, ih, Net.arcPT, Net.arcTP]

theorem retorn_marks (f : Function) (n : Net) :
    (f.retorn n).1.initialMarks = n.initialMarks := by
  unfold Function.retorn
  cases f.destination <;>
    simp [releaseArcs_marks, Net.addTransition, Net.arcPT, Net.arcTP]

theorem visitStatement_marks (st : TransState) (s : Statement) :
    stepMarks (visitStatement st s) = st.net.initialMarks := by
  unfold visitStatement
  cases hc : st.callStack with
  | nil => rfl
  | cons f rest => cases s.kind <;> rfl

theorem visitStatements_marks (l : List Statement) (st : TransState) :
    stepMarks (visitStatements st l) = st.net.initialMarks := by
  induction l generalizing st with
  | nil => rfl
  | cons s rest ih =>
    unfold visitStatements
    cases hv : visitStatement st s with
    | error e =>
      have := visitStatement_marks st s
      rw [hv] at this
      exact this
    | ok st1 =>
      have h1 := visitStatement_marks st s
      rw [hv] at h1
      rw [ih st1]
      exact h1

theorem superVisitOperand_marks (st : TransState) (op : Operand) :
    stepMarks (superVisitOperand st op) = st.net.initialMarks := by
  cases op <;> rfl

theorem superVisitOperands_marks (l : List Operand) (st : TransState) :
    stepMarks (superVisitOperands st l) = st.net.initialMarks := by
  induction l generalizing st with
  | nil => rfl
  | cons op rest ih =>
    unfold superVisitOperands
    cases hv : superVisitOperand st op with
    | error e =>
      have := superVisitOperand_marks st op
      rw [hv] at this
      exact this
    | ok st1 =>
      have h1 := superVisitOperand_marks st op
      rw [hv] at h1
      rw [ih st1]
      exact h1

theorem superTerminatorKind_marks (st : TransState) (k : TerminatorKind) :
    stepMarks (superTerminatorKind st k) = st.net.initialMarks := by
  cases k with
  | call func args dest =>
    unfold superTerminatorKind
    cases hv : superVisitOperand st func with
    | error e =>
      have h0 := superVisitOperand_marks st func
      rw [hv] at h0
      simp only [hv]
      exact h0
    | ok st1 =>
      have h1 := superVisitOperand_marks st func
      rw [hv] at h1
      simp only [hv]
      cases hv2 : superVisitOperands st1 args with
      | error e =>
        have h2 := superVisitOperands_marks args st1
        rw [hv2] at h2
        simp only [hv2]
        rw [stepMarks] at h1 h2 ⊢
        rw [h2]
        exact h1
      | ok st2 =>
        have h2 := superVisitOperands_marks args st1
        rw [hv2] at h2
        simp only [hv2]
        rw [stepMarks] at h1 h2 ⊢
        cases dest <;> simp only [stepState] <;> rw [show st2.net.initialMarks = st1.net.initialMarks from h2] <;> exact h1
  | switchInt discr targets => exact superVisitOperand_marks st discr
  | assert cond target => exact superVisitOperand_marks st cond
  | _ => rfl

theorem calleeSty_error (st : TransState) (op : Operand) (e : Fatal)
    (h : calleeSty st op = Except.error e) : ∃ m, e = Fatal.panicF m st := by
  cases op with
  | constant ty => simp [calleeSty] at h
  | copy p =>
    unfold calleeSty at h
    cases hc : st.callStack with
    | nil =>
      simp only [hc] at h
      cases h
      exact ⟨_, rfl⟩
    | cons f rest =>
      simp only [hc] at h
      cases hty : placeBaseTy f.mirBody.localDecls p.base with
      | error m =>
        simp only [hty] at h
        cases h
        exact ⟨_, rfl⟩
      | ok t =>
        simp only [hty] at h
        exact Except.noConfusion h
  | move p =>
    unfold calleeSty at h
    cases hc : st.callStack with
    | nil =>
      simp only [hc] at h
      cases h
      exact ⟨_, rfl⟩
    | cons f rest =>
      simp only [hc] at h
      cases hty : placeBaseTy f.mirBody.localDecls p.base with
      | error m =>
        simp only [hty] at h
        cases h
        exact ⟨_, rfl⟩
      | ok t =>
        simp only [hty] at h
        exact Except.noConfusion h

theorem handleResolvedCall_marks (recur : Recur) (tcx : TyCtxt) (st : TransState)
    (function : DefId) (args : List Operand) (destination : Option (Place × Nat))
    (hrec : recurPreservesMarks recur) :
    resMarksEq st.net.initialMarks (handleResolvedCall recur tcx st function args destination) := by
  intro r' hr
  unfold handleResolvedCall at hr
  by_cases hf : tcx.isForeignItem function = true
  · rw [if_pos hf] at hr
    cases hr
    rfl
  · rw [if_neg hf] at hr
    cases hs : skip_function tcx function with
    | true =>
      rw [if_neg (by simp [hs])] at hr
      cases hr
      rfl
    | false =>
      rw [if_pos (by simp [hs])] at hr
      cases hm : tcx.isMirAvailable function with
      | false =>
        rw [if_pos (by simp [hm])] at hr
        cases hr
        rfl
      | true =>
        rw [if_neg (by simp [hm])] at hr
        cases hc : st.callStack with
        | nil =>
          simp only [hc] at hr
          cases hr
          rfl
        | cons f rest =>
          simp only [hc, Function.function_call_start_place] at hr
          cases hrc : recur st function f.cursor args destination with
          | none =>
            simp only [hrc] at hr
            exact Option.noConfusion hr
          | some step =>
            have hstep := hrec st function f.cursor args destination step hrc
            cases step with
            | error e =>
              cases e with
              | panicF m s =>
                simp only [hrc] at hr
                cases hr
                exact hstep
              | errF m s =>
                simp only [hrc] at hr
                cases hr
                exact hstep
            | ok s =>
              simp only [hrc] at hr
              cases hr
              exact hstep

theorem visitTerminatorArm_marks (recur : Recur) (tcx : TyCtxt) (st : TransState)
    (k : TerminatorKind) (hrec : recurPreservesMarks recur) :
    resMarksEq st.net.initialMarks (visitTerminatorArm recur tcx st k) := by
  intro r' hr
  unfold visitTerminatorArm at hr
  cases k with
  | ret =>
    cases hc : st.callStack with
    | nil =>
      simp only [hc] at hr
      cases hr
      rfl
    | cons f rest =>
      rcases hR : f.retorn st.net with ⟨net1, f1⟩
      simp only [hc, hR] at hr
      cases hr
      rw [stepMarks]
      have h1 := retorn_marks f st.net
      rw [hR] at h1
      exact h1
  | goto target =>
    cases hc : st.callStack with
    | nil =>
      simp only [hc] at hr
      cases hr
      rfl
    | cons f rest =>
      cases hg : f.goto st.net target with
      | error e =>
        simp only [hc, hg] at hr
        cases hr
        rfl
      | ok p =>
        rcases p with ⟨net1, f1⟩
        simp only [hc, hg] at hr
        cases hr
        rw [stepMarks]
        exact goto_marks f st.net target net1 f1 hg
  | switchInt discr targets =>
    cases hr
    rfl
  | call func args destination =>
    cases hsty : calleeSty st func with
    | error e =>
      simp only [hsty] at hr
      cases hr
      obtain ⟨m, rfl⟩ := calleeSty_error st func e hsty
      rfl
    | ok sty =>
      simp only [hsty] at hr
      cases hres : resolveFunctionDefId sty with
      | error m =>
        simp only [hres] at hr
        cases hr
        rfl
      | ok function =>
        simp only [hres] at hr
        exact handleResolvedCall_marks recur tcx st function args destination hrec r' hr
  | drop place target =>
    cases hr
    rfl
  | assert cond target =>
    cases hr
    rfl
  | yield =>
    cases hr
    rfl
  | generatorDrop =>
    cases hr
    rfl
  | dropAndReplace place value target =>
    cases hr
    rfl
  | resume =>
    cases hr
    rfl
  | abort =>
    cases hr
    rfl
  | falseEdges =>
    cases hr
    rfl
  | falseUnwind =>
    cases hr
    rfl
  | unreachable =>
    cases hr
    rfl

theorem visitTerminatorKind_marks (recur : Recur) (tcx : TyCtxt) (st : TransState)
    (k : TerminatorKind) (hrec : recurPreservesMarks recur) :
    resMarksEq st.net.initialMarks (visitTerminatorKind recur tcx st k) := by
  intro r' hr
  unfold visitTerminatorKind at hr
  cases hA : visitTerminatorArm recur tcx st k with
  | none =>
    rw [hA] at hr
    exact Option.noConfusion hr
  | some step =>
    have hstep := visitTerminatorArm_marks recur tcx st k hrec step hA
    cases step with
    | error e =>
      simp only [hA] at hr
      cases hr
      exact hstep
    | ok st1 =>
      simp only [hA] at hr
      cases hr
      rw [stepMarks] at hstep ⊢
      have h2 := superTerminatorKind_marks st1 k
      rw [stepMarks] at h2
      rw [h2]
      exact hstep

theorem isEmptyFuel_none {T : Type} : ∀ (n : Nat) (s : CallStack T),
    CallStack.isEmptyFuel n s = none := by
  intro n
  induction n with
  | zero => intro s; rfl
  | succ k ih => intro s; exact ih s

theorem bindArgs_error (f : Function) (st : TransState) (args : List Operand) (e : Fatal)
    (h : bindArgs f st args = Except.error e) :
    stepMarks (Except.error e) = st.net.initialMarks := by
  induction args with
  | nil => exact absurd h (by simp [bindArgs])
  | cons a rest ih =>
    unfold bindArgs at h
    cases ho : op_to_local a with
    | error m =>
      simp only [ho] at h
      cases h
      rfl
    | ok l =>
      simp only [ho] at h
      cases hg : f.get_local l with
      | error m =>
        simp only [hg] at h
        cases h
        rfl
      | ok pr =>
        simp only [hg] at h
        cases hb : bindArgs f st rest with
        | error e2 =>
          simp only [hb] at h
          cases h
          exact ih hb
        | ok b =>
          simp only [hb] at h
          exact Except.noConfusion h

theorem visitBasicBlockData_marks (recur : Recur) (tcx : TyCtxt) (st : TransState)
    (bIdx : Nat) (bb : BasicBlockData) (hrec : recurPreservesMarks recur) :
    resMarksEq st.net.initialMarks (visitBasicBlockData recur tcx st bIdx bb) := by
  intro r' hr
  unfold visitBasicBlockData at hr
  cases hc : st.callStack with
  | nil =>
    simp only [hc] at hr
    cases hr
    rfl
  | cons f rest =>
    simp only [hc] at hr
    cases hab : f.activate_block bIdx with
    | error e2 =>
      simp only [hab] at hr
      cases hr
      rfl
    | ok f1 =>
      simp only [hab] at hr
      cases hvs : visitStatements ⟨st.net, f1 :: rest⟩ bb.statements with
      | error e =>
        simp only [hvs] at hr
        cases hr
        have h1 := visitStatements_marks bb.statements ⟨st.net, f1 :: rest⟩
        rw [hvs] at h1
        exact h1
      | ok st2 =>
        simp only [hvs] at hr
        have h1 := visitStatements_marks bb.statements ⟨st.net, f1 :: rest⟩
        rw [hvs] at h1
        have h2 := visitTerminatorKind_marks recur tcx st2 bb.terminator hrec r' hr
        rw [stepMarks] at h1
        rw [h2]
        exact h1

theorem visitBlocks_marks (recur : Recur) (tcx : TyCtxt) (hrec : recurPreservesMarks recur)
    (l : List BasicBlockData) :
    ∀ (st : TransState) (i : Nat), resMarksEq st.net.initialMarks (visitBlocks recur tcx st i l) := by
  induction l with
  | nil =>
    intro st i r' hr
    cases hr
    rfl
  | cons bb rest ih =>
    intro st i r' hr
    unfold visitBlocks at hr
    cases hb : visitBasicBlockData recur tcx st i bb with
    | none =>
      simp only [hb] at hr
      exact Option.noConfusion hr
    | some step =>
      cases step with
      | error e =>
        simp only [hb] at hr
        cases hr
        exact visitBasicBlockData_marks recur tcx st i bb hrec _ hb
      | ok st1 =>
        simp only [hb] at hr
        have h1 := visitBasicBlockData_marks recur tcx st i bb hrec _ hb
        have h2 := ih st1 (i + 1) r' hr
        rw [stepMarks] at h1
        rw [h2]
        exact h1

theorem visitBody_marks (recur : Recur) (tcx : TyCtxt) (st : TransState) (body : Body)
    (hrec : recurPreservesMarks recur) :
    resMarksEq st.net.initialMarks (visitBody recur tcx st body) := by
  intro r' hr
  unfold visitBody at hr
  cases hc : st.callStack with
  | nil =>
    simp only [hc] at hr
    cases hr
    rfl
  | cons f rest =>
    rcases hL : f.add_locals st.net body.localDecls with ⟨net1, f1⟩
    simp only [hc, hL] at hr
    have h1 := addLocals_marks f st.net body.localDecls
    rw [hL] at h1
    have h2 := visitBlocks_marks recur tcx hrec body.basicBlocks ⟨net1, f1 :: rest⟩ 0 r' hr
    rw [h2]
    exact h1

theorem translateCore_marks (recur : Recur) (tcx : TyCtxt) (st : TransState) (function : DefId)
    (body : Body) (argB : List (Local × (NodeRef × NodeRef)))
    (destB : Option (Local × (NodeRef × NodeRef))) (net : Net) (sp : NodeRef) (nm : String)
    (hrec : recurPreservesMarks recur) :
    resMarksEq net.initialMarks (translateCore recur tcx st function body argB destB net sp nm) := by
  intro r' hr
  unfold translateCore at hr
  rcases hN : Function.new function body net argB destB sp nm with ⟨net1, fNew⟩
  simp only [hN] at hr
  have hnm := functionNew_marks function body net argB destB sp nm
  rw [hN] at hnm
  cases hv : visitBody recur tcx ⟨net1, fNew :: st.callStack⟩ body with
  | none =>
    simp only [hv] at hr
    exact Option.noConfusion hr
  | some step =>
    have h1 := visitBody_marks recur tcx ⟨net1, fNew :: st.callStack⟩ body hrec step hv
    cases step with
    | error e =>
      simp only [hv] at hr
      cases hr
      rw [h1]
      exact hnm
    | ok stAfter =>
      simp only [hv] at hr
      cases hr
      rw [stepMarks] at h1
      exact h1.trans hnm

theorem translateBody_marks (recur : Recur) (fuel : Nat) (tcx : TyCtxt) (st : TransState)
    (function : DefId) (sp : NodeRef) (args : List Operand)
    (destination : Option (Place × Nat)) (hrec : recurPreservesMarks recur) :
    resMarksEq st.net.initialMarks (translateBody recur fuel tcx st function sp args destination) := by
  intro r' hr
  unfold translateBody at hr
  by_cases ha : args.isEmpty = true
  · simp only [ha, if_true] at hr
    cases hd : destination with
    | none =>
      simp only [hd] at hr
      exact translateCore_marks recur tcx st function (tcx.optimizedMir function) [] none st.net sp
        (tcx.describeAsModule function) hrec r' hr
    | some pb =>
      rcases pb with ⟨place, blk⟩
      simp only [hd] at hr
      cases hp : place_to_local place with
      | error m =>
        simp only [hp] at hr
        cases hr
        rfl
      | ok lcl =>
        simp only [hp, isEmptyFuel_none] at hr
        exact Option.noConfusion hr
  · simp only [ha, if_false, Bool.false_eq_true] at hr
    cases hc : st.callStack with
    | nil =>
      simp only [hc] at hr
      cases hr
      rfl
    | cons f rest =>
      simp only [hc] at hr
      cases hb : bindArgs f st args with
      | error e =>
        simp only [hb] at hr
        cases hr
        exact bindArgs_error f st args e hb
      | ok binding =>
        simp only [hb] at hr
        cases hd : destination with
        | none =>
          simp only [hd] at hr
          exact translateCore_marks recur tcx st function (tcx.optimizedMir function) binding none
            st.net sp (tcx.describeAsModule function) hrec r' hr
        | some pb =>
          rcases pb with ⟨place, blk⟩
          simp only [hd] at hr
          cases hp : place_to_local place with
          | error m =>
            simp only [hp] at hr
            cases hr
            rfl
          | ok lcl =>
            simp only [hp, isEmptyFuel_none] at hr
            exact Option.noConfusion hr

theorem translateFuel_marks (tcx : TyCtxt) : ∀ (fuel : Nat),
    recurPreservesMarks (fun s d sp a dst => translateFuel fuel tcx s d sp a dst) := by
  intro fuel
  induction fuel with
  | zero =>
    intro s d sp a dst r' hr
    exact Option.noConfusion hr
  | succ n ih =>
    intro s d sp a dst r' hr
    simp only [translateFuel] at hr
    exact translateBody_marks _ n tcx s d sp a dst ih r' hr

/-! Evaluation facts about the concrete fixtures. -/

theorem tcxR_foreign : tcxR.isForeignItem rId = false := rfl

theorem tcxR_mir : tcxR.isMirAvailable rId = true := rfl

theorem tcxR_body : tcxR.optimizedMir rId = bodyR := rfl

theorem skipR : skip_function tcxR rId = false := by decide

theorem skipP : skip_function tcxP pId = true := by decide

theorem tcxP_foreign : tcxP.isForeignItem pId = false := rfl

theorem tcxF_foreign : tcxF.isForeignItem fId = true := by decide

/-- C1: the claim says a recursive callee already on the call stack is
summarized by one opaque transition without descending. The code never
consults the call stack before descending: on the directly recursive
program, translation at every fuel bound fails to terminate, for every
state and start place, so no summary transition is ever emitted and a fresh
subnet is pushed at each level. -/
theorem claim_C1 : ∀ (fuel : Nat) (st : TransState) (sp : NodeRef),
    translateFuel fuel tcxR st rId sp [] none = none := by
  intro fuel
  induction fuel with
  | zero => intro st sp; rfl
  | succ n ih =>
    intro st sp
    simp only [translateFuel]
    simp [translateBody, translateCore, visitBody, visitBlocks, visitBasicBlockData,
      visitStatements, visitTerminatorKind, visitTerminatorArm, calleeSty,
      resolveFunctionDefId, handleResolvedCall, Function.new, allocBlockPlaces,
      Function.add_locals, addLocalsGo, Function.activate_block, assocFind,
      Function.function_call_start_place, tcxR_foreign, tcxR_mir, tcxR_body, bodyR,
      skipR, ih]

/-- C2: the claim says a skipped or foreign callee yields exactly one atomic
transition from the call-site cursor place to the continuation entry place.
The code emits nothing at all: with no destination the state is returned
unchanged (no transition, no arc), and with a destination the visitor
panics in `visit_place` before emitting anything, again with the state
unchanged. The same holds for a foreign callee. -/
theorem claim_C2 :
    (∀ st : TransState,
      visitTerminatorKind recurNone tcxP st
        (TerminatorKind.call (Operand.constant (Ty.fnDef pId)) [] none)
        = some (Except.ok st))
  ∧ (∀ (st : TransState) (destPlace : Place) (blk : Nat),
      visitTerminatorKind recurNone tcxP st
        (TerminatorKind.call (Operand.constant (Ty.fnDef pId)) [] (some (destPlace, blk)))
        = some (Except.error (Fatal.panicF "place" st)))
  ∧ (∀ st : TransState,
      visitTerminatorKind recurNone tcxF st
        (TerminatorKind.call (Operand.constant (Ty.fnDef fId)) [] none)
        = some (Except.ok st)) := by
  refine ⟨fun st => ?_, fun st destPlace blk => ?_, fun st => ?_⟩ <;>
    simp [visitTerminatorKind, visitTerminatorArm, calleeSty, resolveFunctionDefId,
      handleResolvedCall, superTerminatorKind, superVisitOperand, superVisitOperands,
      skipP, tcxP_foreign, tcxF_foreign]

/-- C3: the claim says a `SwitchInt` terminator produces one transition per
target plus the otherwise target. The code panics unconditionally on every
`SwitchInt`, whatever the discriminant and target set, emitting nothing. -/
theorem claim_C3 : ∀ (recur : Recur) (tcx : TyCtxt) (st : TransState) (discr : Operand)
    (targets : List Nat),
    visitTerminatorKind recur tcx st (TerminatorKind.switchInt discr targets)
      = some (Except.error (Fatal.panicF "SwitchInt" st)) := by
  intro recur tcx st discr targets
  rfl

/-- C4: a callee operand whose static type is a function pointer makes the
translation fail fatally right at resolution (the panic after the
"Function pointers are not supported" log), both for a constant callee of
pointer type and for a copied place whose declared type is a function
pointer; a function-definition type resolves to its procedure
identifier. -/
theorem claim_C4 :
    (∀ (recur : Recur) (tcx : TyCtxt) (st : TransState) (args : List Operand)
       (dest : Option (Place × Nat)),
      visitTerminatorKind recur tcx st (TerminatorKind.call (Operand.constant Ty.fnPtr) args dest)
        = some (Except.error (Fatal.panicF "Function pointers are not supported" st)))
  ∧ (∀ (recur : Recur) (tcx : TyCtxt) (st : TransState) (args : List Operand)
       (dest : Option (Place × Nat)) (f : Function) (rest : List Function) (p : Place),
      st.callStack = f :: rest →
      placeBaseTy f.mirBody.localDecls p.base = Except.ok Ty.fnPtr →
      visitTerminatorKind recur tcx st (TerminatorKind.call (Operand.copy p) args dest)
        = some (Except.error (Fatal.panicF "Function pointers are not supported" st)))
  ∧ (∀ d : DefId, resolveFunctionDefId (Ty.fnDef d) = Except.ok d) := by
  refine ⟨fun recur tcx st args dest => rfl, ?_, fun d => rfl⟩
  intro recur tcx st args dest f rest p hc hty
  simp [visitTerminatorKind, visitTerminatorArm, calleeSty, hc, hty, resolveFunctionDefId]

/-- Witness for C4 at a concrete caller whose local 0 is declared with
function-pointer type. -/
theorem claim_C4_witness :
    visitTerminatorKind recurNone tcx1 stPtr (TerminatorKind.call (Operand.copy pl0) [] none)
      = some (Except.error (Fatal.panicF "Function pointers are not supported" stPtr)) :=
  claim_C4.2.1 recurNone tcx1 stPtr [] none framePtr [] pl0 (by rfl) (by rfl)

/-- Counterexample to C5: `d5` is a lang item the analysis has no model for
(it is in the lang-item table, is not the panic entry point, and its module
description contains no panic machinery), so the claimed predicate selects
it, but `skip_function` returns false — lang items are only logged. -/
theorem claim_C5_counterexample :
    skip_function tcx5 d5 = false ∧ skip_function_spec tcx5 d5 = true := by
  constructor
  · decide
  · decide

/-- C5 as amended: `skip_function` returns true exactly when the callee is
the registered panic lang item or its descriptive module path contains one
of the two panic-machinery substrings; language intrinsics and other lang
items are not skipped. -/
theorem claim_C5_amended : ∀ (tcx : TyCtxt) (d : DefId),
    skip_function tcx d = true ↔
      (tcx.panicFn = some d
        ∨ strContainsSub (tcx.describeAsModule d) "std::rt::begin_panic_fmt" = true
        ∨ strContainsSub (tcx.describeAsModule d) "std::panicking::panicking" = true) := by
  intro tcx d
  simp only [skip_function]
  split_ifs with h1 h2 h3 <;> simp_all

theorem bindArgs_forall2 (caller : Function) (st : TransState) :
    ∀ (args : List Operand) (binding : List (Local × (NodeRef × NodeRef))),
    bindArgs caller st args = Except.ok binding →
    List.Forall₂ (fun a lp => op_to_local a = Except.ok lp.1
      ∧ caller.get_local lp.1 = Except.ok lp.2) args binding := by
  intro args
  induction args with
  | nil =>
    intro binding h
    simp only [bindArgs] at h
    cases h
    exact List.Forall₂.nil
  | cons a rest ih =>
    intro binding h
    unfold bindArgs at h
    cases ho : op_to_local a with
    | error m =>
      simp only [ho] at h
      exact Except.noConfusion h
    | ok l =>
      simp only [ho] at h
      cases hg : caller.get_local l with
      | error m =>
        simp only [hg] at h
        exact Except.noConfusion h
      | ok pr =>
        simp only [hg] at h
        cases hb : bindArgs caller st rest with
        | error e =>
          simp only [hb] at h
          exact Except.noConfusion h
        | ok b =>
          simp only [hb] at h
          cases h
          exact List.Forall₂.cons ⟨ho, hg⟩ (ih b hb)

theorem bindArgs_const_ne (caller : Function) (st : TransState) :
    ∀ (args : List Operand) (t : Ty), Operand.constant t ∈ args →
    ∀ binding, bindArgs caller st args ≠ Except.ok binding := by
  intro args
  induction args with
  | nil => intro t hmem; exact absurd hmem (List.not_mem_nil _)
  | cons a rest ih =>
    intro t hmem binding h
    unfold bindArgs at h
    rcases List.mem_cons.mp hmem with heq | hmem2
    · rw [← heq] at h
      simp only [op_to_local] at h
      exact Except.noConfusion h
    · cases ho : op_to_local a with
      | error m =>
        simp only [ho] at h
        exact Except.noConfusion h
      | ok l =>
        simp only [ho] at h
        cases hg : caller.get_local l with
        | error m =>
          simp only [hg] at h
          exact Except.noConfusion h
        | ok pr =>
          simp only [hg] at h
          cases hb : bindArgs caller st rest with
          | error e =>
            simp only [hb] at h
            exact Except.noConfusion h
          | ok b =>
            exact ih t hmem2 b hb

theorem translateBody_const_err (recur : Recur) (fuel : Nat) (tcx : TyCtxt) (st : TransState)
    (d : DefId) (sp : NodeRef) (args : List Operand) (dest : Option (Place × Nat)) (t : Ty)
    (hmem : Operand.constant t ∈ args) :
    ∃ e, translateBody recur fuel tcx st d sp args dest = some (Except.error e) := by
  cases args with
  | nil => exact absurd hmem (List.not_mem_nil _)
  | cons a rest =>
    unfold translateBody
    simp only [List.isEmpty_cons, if_false, Bool.false_eq_true]
    cases hc : st.callStack with
    | nil => exact ⟨_, rfl⟩
    | cons f frest =>
      cases hb : bindArgs f st (a :: rest) with
      | error e =>
        refine ⟨e, ?_⟩
        simp only [hb]
      | ok binding => exact absurd hb (bindArgs_const_ne f st (a :: rest) t hmem binding)

/-- C6: when the binding loop of `translate` succeeds, every argument
operand is a `Copy`/`Move` of a local bound to the pair the caller owns for
that local; an argument list containing a constant never produces a binding,
and `translate` fails on it. -/
theorem claim_C6 :
    (∀ (caller : Function) (st : TransState) (args : List Operand)
       (binding : List (Local × (NodeRef × NodeRef))),
      bindArgs caller st args = Except.ok binding →
      List.Forall₂ (fun a lp => op_to_local a = Except.ok lp.1
        ∧ caller.get_local lp.1 = Except.ok lp.2) args binding)
  ∧ (∀ (caller : Function) (st : TransState) (args : List Operand) (t : Ty),
      Operand.constant t ∈ args →
      ∀ binding, bindArgs caller st args ≠ Except.ok binding)
  ∧ (∀ (recur : Recur) (fuel : Nat) (tcx : TyCtxt) (st : TransState) (d : DefId)
       (sp : NodeRef) (args : List Operand) (dest : Option (Place × Nat)) (t : Ty),
      Operand.constant t ∈ args →
      ∃ e, translateBody recur fuel tcx st d sp args dest = some (Except.error e)) :=
  ⟨fun caller st args binding => bindArgs_forall2 caller st args binding,
   fun caller st args t => bindArgs_const_ne caller st args t,
   fun recur fuel tcx st d sp args dest t hmem =>
     translateBody_const_err recur fuel tcx st d sp args dest t hmem⟩

/-- Witness for C6: the caller owning local 1 with the place pair (5, 6)
binds the single `Copy` argument to exactly that pair, and a constant
argument produces no binding. -/
theorem claim_C6_witness :
    List.Forall₂ (fun a lp => op_to_local a = Except.ok lp.1
      ∧ callerC6.get_local lp.1 = Except.ok lp.2)
      [Operand.copy pl1] [(Local.mk 1, (5, 6))]
  ∧ ∀ binding, bindArgs callerC6 stC [Operand.constant (Ty.other 0)] ≠ Except.ok binding :=
  ⟨claim_C6.1 callerC6 stC [Operand.copy pl1] [(Local.mk 1, (5, 6))] (by decide),
   fun binding => claim_C6.2.1 callerC6 stC [Operand.constant (Ty.other 0)] (Ty.other 0)
     (by simp) binding⟩

theorem petrify_ok_inv (fuel : Nat) (tcx : TyCtxt) (main : DefId) (st : TransState)
    (out : String) (hp : petrify fuel tcx main = some (Except.ok (st, out))) :
    translateFuel fuel tcx initState main (Net.empty.addPlace).2 [] none = some (Except.ok st)
      ∧ out = serializeNet st.net := by
  unfold petrify at hp
  cases ht : translateFuel fuel tcx initState main (Net.empty.addPlace).2 [] none with
  | none =>
    rw [ht] at hp
    exact Option.noConfusion hp
  | some step =>
    rw [ht] at hp
    cases step with
    | error e => simp at hp
    | ok st1 =>
      simp only [] at hp
      cases hp
      exact ⟨rfl, rfl⟩

/-- C7: the serialized document reaches standard output exactly when the
whole translation of the entry procedure returns successfully, and what is
printed is the serialization of the final net; a run that ends in a fatal
error prints nothing and exits with code one. -/
theorem claim_C7 :
    (∀ (fuel : Nat) (tcx : TyCtxt) (main : DefId) (out : String) (code : Nat),
      runMain fuel tcx main = some (some out, code) →
      code = 0 ∧ ∃ st, translateFuel fuel tcx initState main (Net.empty.addPlace).2 [] none
        = some (Except.ok st) ∧ out = serializeNet st.net)
  ∧ (∀ (fuel : Nat) (tcx : TyCtxt) (main : DefId) (e : Fatal),
      petrify fuel tcx main = some (Except.error e) →
      runMain fuel tcx main = some (none, 1)) := by
  constructor
  · intro fuel tcx main out code h
    unfold runMain at h
    cases hp : petrify fuel tcx main with
    | none =>
      rw [hp] at h
      exact Option.noConfusion h
    | some r =>
      rw [hp] at h
      cases r with
      | error e => simp at h
      | ok p =>
        rcases p with ⟨st, outp⟩
        simp only [] at h
        cases h
        obtain ⟨ht, hout⟩ := petrify_ok_inv fuel tcx main st _ hp
        exact ⟨rfl, st, ht, hout⟩
  · intro fuel tcx main e hp
    unfold runMain
    rw [hp]

/-- Witness for C7: the empty program translates at fuel one, prints the
serialized net and exits with code zero. -/
theorem claim_C7_witness :
    (0 : Nat) = 0 ∧ ∃ st, translateFuel 1 tcx1 initState mainId (Net.empty.addPlace).2 [] none
      = some (Except.ok st) ∧ outMain = serializeNet st.net :=
  claim_C7.1 1 tcx1 mainId outMain 0 (by decide)

/-- C8: whenever translation completes and the document is emitted, the only
recorded initial marking is one token on the start place (handle 0); every
other place keeps the default marking of zero. -/
theorem claim_C8 : ∀ (fuel : Nat) (tcx : TyCtxt) (main : DefId) (st : TransState) (out : String),
    petrify fuel tcx main = some (Except.ok (st, out)) →
    st.net.markingOf 0 = 1 ∧ ∀ p, p ≠ 0 → st.net.markingOf p = 0 := by
  intro fuel tcx main st out hp
  obtain ⟨ht, _⟩ := petrify_ok_inv fuel tcx main st out hp
  have hmarks := translateFuel_marks tcx fuel initState main (Net.empty.addPlace).2 [] none _ ht
  rw [stepMarks] at hmarks
  have hm : st.net.initialMarks = [(0, 1)] := hmarks
  constructor
  · rw [Net.markingOf, hm]
    rfl
  · intro p hpne
    rw [Net.markingOf, hm]
    simp only [assocFind]
    rw [if_neg (fun h => hpne h.symm)]

/-- Witness for C8: the concrete final state of the empty program has one
token on place 0 and zero on any other place, here place 5. -/
theorem claim_C8_witness :
    stMainRun.net.markingOf 0 = 1 ∧ stMainRun.net.markingOf 5 = 0 :=
  ⟨(claim_C8 1 tcx1 mainId stMainRun outMain (by decide)).1,
   (claim_C8 1 tcx1 mainId stMainRun outMain (by decide)).2 5 (by decide)⟩

theorem translateBody_some_dest_diverges (fuel : Nat) (recur : Recur) (tcx : TyCtxt)
    (st : TransState) (d : DefId) (sp : NodeRef) (args : List Operand) (place : Place)
    (blk : Nat) (l : Local)
    (hargs : args.isEmpty = true
      ∨ ∃ f r binding, st.callStack = f :: r ∧ bindArgs f st args = Except.ok binding)
    (hl : place_to_local place = Except.ok l) :
    translateBody recur fuel tcx st d sp args (some (place, blk)) = none := by
  unfold translateBody
  rcases hargs with ha | ⟨f, r, binding, hc, hb⟩
  · simp only [ha, if_true, hl, isEmptyFuel_none]
  · by_cases haE : args.isEmpty = true
    · simp only [haE, if_true, hl, isEmptyFuel_none]
    · simp only [haE, if_false, Bool.false_eq_true, hc, hb, hl, isEmptyFuel_none]

theorem translateFuel_some_dest_diverges (fuel : Nat) (tcx : TyCtxt) (st : TransState)
    (d : DefId) (sp : NodeRef) (place : Place) (blk : Nat) (l : Local)
    (hl : place_to_local place = Except.ok l) :
    translateFuel fuel tcx st d sp [] (some (place, blk)) = none := by
  cases fuel with
  | zero => rfl
  | succ n =>
    simp only [translateFuel]
    exact translateBody_some_dest_diverges n _ tcx st d sp [] place blk l (Or.inl rfl) hl

/-- C9: `CallStack::is_empty` calls itself unconditionally, so it yields no
answer within any fuel bound, for any stack; consequently a `translate`
invocation with a `Some` destination never terminates once it reaches the
`is_empty` query (that is, once the argument binding has succeeded and the
destination place resolves to a local). -/
theorem claim_C9 :
    (∀ (n : Nat) (s : CallStack Function), CallStack.isEmptyFuel n s = none)
  ∧ (∀ (fuel : Nat) (recur : Recur) (tcx : TyCtxt) (st : TransState) (d : DefId)
       (sp : NodeRef) (args : List Operand) (place : Place) (blk : Nat) (l : Local),
      (args.isEmpty = true
        ∨ ∃ f r binding, st.callStack = f :: r ∧ bindArgs f st args = Except.ok binding) →
      place_to_local place = Except.ok l →
      translateBody recur fuel tcx st d sp args (some (place, blk)) = none)
  ∧ (∀ (fuel : Nat) (tcx : TyCtxt) (st : TransState) (d : DefId) (sp : NodeRef)
       (place : Place) (blk : Nat) (l : Local),
      place_to_local place = Except.ok l →
      translateFuel fuel tcx st d sp [] (some (place, blk)) = none) :=
  ⟨fun n s => isEmptyFuel_none n s,
   fun fuel recur tcx st d sp args place blk l =>
     translateBody_some_dest_diverges fuel recur tcx st d sp args place blk l,
   fun fuel tcx st d sp place blk l =>
     translateFuel_some_dest_diverges fuel tcx st d sp place blk l⟩

/-- Witness for C9 on a concrete stack and a concrete `Some`-destination
invocation. -/
theorem claim_C9_witness :
    CallStack.isEmptyFuel 5 (CallStack.mk ([] : List Function)) = none
  ∧ translateFuel 7 tcx1 initState mainId 0 [] (some (pl0, 0)) = none :=
  ⟨claim_C9.1 5 ⟨[]⟩,
   claim_C9.2.2 7 tcx1 initState mainId 0 pl0 0 (Local.mk 0) (by rfl)⟩

theorem visitStatement_panics (st : TransState) (f : Function) (rest : List Function)
    (stmt : Statement) (hc : st.callStack = f :: rest)
    (hk : stmt.kind = StatementKind.assign ∨ stmt.kind = StatementKind.retag
      ∨ stmt.kind = StatementKind.ascribeUserTy ∨ stmt.kind = StatementKind.fakeRead
      ∨ stmt.kind = StatementKind.setDiscriminant) :
    ∃ m st1, visitStatement st stmt = Except.error (Fatal.panicF m st1)
      ∧ st1.net.transCount = st.net.transCount + 1 := by
  unfold visitStatement
  rcases hk with hk | hk | hk | hk | hk <;>
    simp only [hc, hk] <;>
    exact ⟨_, _, rfl, rfl⟩

theorem visitStatement_assign_ne (st : TransState) (stmt : Statement)
    (hk : stmt.kind = StatementKind.assign) :
    ∀ st2, visitStatement st stmt ≠ Except.ok st2 := by
  intro st2 h
  unfold visitStatement at h
  cases hc : st.callStack with
  | nil =>
    simp only [hc] at h
    exact Except.noConfusion h
  | cons f rest =>
    simp only [hc, hk] at h
    exact Except.noConfusion h

theorem visitStatements_assign_ne (stmt : Statement) (hk : stmt.kind = StatementKind.assign) :
    ∀ (stmts : List Statement), stmt ∈ stmts →
    ∀ (st st1 : TransState), visitStatements st stmts ≠ Except.ok st1 := by
  intro stmts
  induction stmts with
  | nil => intro hmem; exact absurd hmem (List.not_mem_nil _)
  | cons a rest ih =>
    intro hmem st st1 h
    unfold visitStatements at h
    cases hv : visitStatement st a with
    | error e =>
      simp only [hv] at h
      exact Except.noConfusion h
    | ok st2 =>
      simp only [hv] at h
      rcases List.mem_cons.mp hmem with heq | hmem2
      · exact visitStatement_assign_ne st a (heq ▸ hk) st2 hv
      · exact ih hmem2 st2 st1 h

/-- C10: on a statement whose visit reaches `visit_assign`, `visit_retag`,
`visit_ascribe_user_ty` or `visit_place` (assignments, retags, user-type
ascriptions, fake reads, discriminant writes), the translator panics right
after appending the statement transition — the state carried by the panic
has exactly one more transition than before — so any statement list
containing an assignment can never complete successfully. -/
theorem claim_C10 :
    (∀ (st : TransState) (f : Function) (rest : List Function) (stmt : Statement),
      st.callStack = f :: rest →
      (stmt.kind = StatementKind.assign ∨ stmt.kind = StatementKind.retag
        ∨ stmt.kind = StatementKind.ascribeUserTy ∨ stmt.kind = StatementKind.fakeRead
        ∨ stmt.kind = StatementKind.setDiscriminant) →
      ∃ m st1, visitStatement st stmt = Except.error (Fatal.panicF m st1)
        ∧ st1.net.transCount = st.net.transCount + 1)
  ∧ (∀ (stmt : Statement), stmt.kind = StatementKind.assign →
      ∀ (stmts : List Statement), stmt ∈ stmts →
      ∀ (st st1 : TransState), visitStatements st stmts ≠ Except.ok st1) :=
  ⟨visitStatement_panics, visitStatements_assign_ne⟩

/-- Witness for C10 at a concrete one-frame state and an assignment
statement. -/
theorem claim_C10_witness :
    ∃ m st1, visitStatement stC (Statement.mk StatementKind.assign)
      = Except.error (Fatal.panicF m st1)
      ∧ st1.net.transCount = stC.net.transCount + 1 :=
  claim_C10.1 stC fC [] (Statement.mk StatementKind.assign) (by rfl) (Or.inl rfl)

end Fairum
